import Mathlib

/-!
Verification of the masterkey vault engine (avahowell/masterkey).

We shallowly embed `vault/vault.go` and `filelock/filelock.go`.  The
external cryptographic primitives (argon2id, scrypt, xchacha20poly1305,
nacl/secretbox) and the gob codec are library code, not part of this
repository; they are modelled symbolically as ideal primitives: key
derivation is an injective constructor, sealing produces a term recording
(key, nonce, plaintext), and opening succeeds exactly when key and nonce
match.  Randomness (`crypto/rand.Reader`) is modelled as a tape
`Nat → Nat` together with a read position; every `io.ReadFull(rand.Reader, …)`
in the source consumes one draw.
-/

namespace Masterkey

/-- Symbolic 32-byte keys.  `argon` models `argon2.IDKey(pass, salt, time, mem, lanes, 32)`,
`scryptK` models `scrypt.Key(pass, salt, 16384, 8, 1, 32)` (the scrypt cost
parameters are the fixed constants `scryptN/R/P` of the source, so they are
not arguments).  `raw` stands for any other 32-byte value. -/
inductive Key where
  | argon (pass : String) (salt : Nat) (time mem lanes : Nat)
  | scryptK (pass : String) (salt : Nat)
  | raw (v : Nat)
deriving DecidableEq, Repr

/-- A credential record: `vault.Credential` (Username, Password, Meta).
Go's `map[string]string` metadata is modelled as an association list with
unique keys; `[]` models both a nil and an empty map. -/
structure Credential where
  username : String
  password : String
  meta : List (String × String) := []
deriving DecidableEq, Repr

/-- The decrypted credential set: Go's `map[string]*Credential`, modelled as
an association list with unique keys. -/
abbrev CredMap := List (String × Credential)

/-- Go map lookup `creds[location]`. -/
def CredMap.lookup (m : CredMap) (k : String) : Option Credential :=
  match m with
  | [] => none
  | (k', c) :: rest => if k' = k then some c else CredMap.lookup rest k

/-- Go map assignment `creds[location] = cred` (replace or append). -/
def CredMap.insert (m : CredMap) (k : String) (c : Credential) : CredMap :=
  match m with
  | [] => [(k, c)]
  | (k', c') :: rest =>
    if k' = k then (k, c) :: rest else (k', c') :: CredMap.insert rest k c

/-- Go `delete(creds, location)`. -/
def CredMap.erase (m : CredMap) (k : String) : CredMap :=
  match m with
  | [] => []
  | (k', c') :: rest =>
    if k' = k then rest else (k', c') :: CredMap.erase rest k

/-- Metadata map lookup `cred.Meta[name]`. -/
def metaLookup (m : List (String × String)) (k : String) : Option String :=
  match m with
  | [] => none
  | (k', v) :: rest => if k' = k then some v else metaLookup rest k

/-- Metadata map assignment `cred.Meta[name] = value`. -/
def metaInsert (m : List (String × String)) (k v : String) : List (String × String) :=
  match m with
  | [] => [(k, v)]
  | (k', v') :: rest =>
    if k' = k then (k, v) :: rest else (k', v') :: metaInsert rest k v

/-- Metadata map deletion `delete(cred.Meta, name)`. -/
def metaErase (m : List (String × String)) (k : String) : List (String × String) :=
  match m with
  | [] => []
  | (k', v') :: rest =>
    if k' = k then rest else (k', v') :: metaErase rest k

/-- Plaintext byte blobs fed to the ciphers.  `gobCreds m` is the gob
encoding of the credential map `m`; `other` stands for any byte string that
does not gob-decode to a credential map. -/
inductive Plaintext where
  | gobCreds (m : CredMap)
  | other (id : Nat)
deriving DecidableEq, Repr

/-- Model of `gob.NewDecoder(...).Decode(&credentials)`. -/
def gobDecodeCreds : Plaintext → Option CredMap
  | .gobCreds m => some m
  | .other _ => none

/-- Symbolic xchacha20poly1305 ciphertext.  `sealed k n pt` is
`aead.Seal(nil, n, pt, nil)` under key `k`; `junk` stands for any byte
string that is not a well-formed seal output (it never authenticates). -/
inductive XCipher where
  | sealed (k : Key) (n : Nat) (pt : Plaintext)
  | junk (id : Nat)
deriving DecidableEq, Repr

/-- Model of `aead.Open(nil, nonce, ct, nil)` for the xchacha20poly1305 AEAD:
authentication succeeds exactly when key and nonce match the seal. -/
def xOpen (key : Key) (nonce : Nat) (ct : XCipher) : Option Plaintext :=
  match ct with
  | .sealed k n pt => if k = key ∧ n = nonce then some pt else none
  | .junk _ => none

/-- Symbolic nacl/secretbox ciphertext (the legacy cipher). -/
inductive SBCipher where
  | sealed (k : Key) (n : Nat) (pt : Plaintext)
  | junk (id : Nat)
deriving DecidableEq, Repr

/-- Model of `secretbox.Open(nil, ct, &nonce, &key)`. -/
def sbOpen (ct : SBCipher) (nonce : Nat) (key : Key) : Option Plaintext :=
  match ct with
  | .sealed k n pt => if k = key ∧ n = nonce then some pt else none
  | .junk _ => none

/-- The random source `crypto/rand.Reader`: an infinite tape of draws and
the current read position. -/
structure RNG where
  tape : Nat → Nat
  idx : Nat

/-- One `io.ReadFull(rand.Reader, buf)` of a salt- or nonce-sized buffer:
return the next tape value and advance. -/
def RNG.draw (r : RNG) : Nat × RNG :=
  (r.tape r.idx, ⟨r.tape, r.idx + 1⟩)

/-- `defaultArgonTime` from the source. -/
def defaultArgonTime : Nat := 3

/-- `defaultArgonMemory` from the source (the non-testing value `2e6`). -/
def defaultArgonMemory : Nat := 2000000

/-- Model of `runtime.NumCPU()`: an arbitrary fixed positive machine
parameter; no claim depends on its value. -/
def numCPU : Nat := 1

/-- `genPasswordLen` from the source. -/
def genPasswordLen : Nat := 32

/-- The error values of package vault, plus the filelock and I/O errors
`Open` can surface. -/
inductive VErr where
  | noSuchCredential      -- ErrNoSuchCredential
  | couldNotDecrypt       -- ErrCouldNotDecrypt
  | credentialExists      -- ErrCredentialExists
  | metaExists            -- ErrMetaExists
  | metaDoesNotExist      -- ErrMetaDoesNotExist
  | gobDecode             -- a gob decoding error
  | jsonParse             -- a json decoding error in openVault
  | fileNotFound          -- an os file-not-found I/O error
  | locked                -- filelock.ErrLocked
  | pwgenBadLength        -- pwgen errBadLength
  | csvFieldCount         -- csv.Reader wrong-number-of-fields error
deriving DecidableEq, Repr

/-- A filelock handle: `filelock.FileLock`. -/
structure FileLock where
  path : String
deriving DecidableEq, Repr

/-- The in-memory vault handle: struct `Vault` of `vault.go`. -/
structure Vault where
  data : XCipher
  nonce : Nat
  salt : Nat
  secret : Key
  argonTime : Nat
  argonMemory : Nat
  argonLanes : Nat
  lock : Option FileLock := none
deriving DecidableEq, Repr

/-- The on-disk current layout: struct `vaultFile` (json-encoded). -/
structure VaultFile where
  argonTime : Nat
  argonMemory : Nat
  argonLanes : Nat
  nonce : Nat
  salt : Nat
  data : XCipher
deriving DecidableEq, Repr

/-- `Vault.decrypt`: open `v.data` under `v.secret`/`v.nonce`, then gob-decode. -/
def Vault.decrypt (v : Vault) : Except VErr CredMap :=
  match xOpen v.secret v.nonce v.data with
  | none => .error .couldNotDecrypt
  | some pt =>
    match gobDecodeCreds pt with
    | none => .error .gobDecode
    | some m => .ok m

/-- `Vault.encrypt`: gob-encode `creds`, draw a fresh nonce from the random
source, and seal under `v.secret` and that nonce.  In the model the gob
encoder and `chacha20poly1305.NewX` on a 32-byte key cannot fail, so
`encrypt` is total. -/
def Vault.encrypt (v : Vault) (creds : CredMap) (r : RNG) : Vault × RNG :=
  let (n, r') := r.draw
  ({ v with nonce := n, data := .sealed v.secret n (.gobCreds creds) }, r')

/-- `Vault.Add`.  Mutating methods are embedded Go-style as
`Vault → … → RNG → Vault × RNG × Option VErr`: on an error return the
receiver was not written to, so the input vault comes back unchanged. -/
def Vault.add (v : Vault) (location : String) (credential : Credential) (r : RNG) :
    Vault × RNG × Option VErr :=
  match v.decrypt with
  | .error e => (v, r, some e)
  | .ok creds =>
    if (CredMap.lookup creds location).isSome then
      (v, r, some .credentialExists)
    else
      let (v', r') := v.encrypt (CredMap.insert creds location credential) r
      (v', r', none)

/-- `Vault.Get`. -/
def Vault.get (v : Vault) (location : String) (r : RNG) :
    Vault × RNG × Except VErr Credential :=
  match v.decrypt with
  | .error e => (v, r, .error e)
  | .ok creds =>
    match CredMap.lookup creds location with
    | none => (v, r, .error .noSuchCredential)
    | some cred => (v, r, .ok cred)

/-- `Vault.Edit`: the replacement takes the old credential's metadata. -/
def Vault.edit (v : Vault) (location : String) (credential : Credential) (r : RNG) :
    Vault × RNG × Option VErr :=
  match v.decrypt with
  | .error e => (v, r, some e)
  | .ok creds =>
    match CredMap.lookup creds location with
    | none => (v, r, some .noSuchCredential)
    | some oldcred =>
      let credential := { credential with meta := oldcred.meta }
      let (v', r') := v.encrypt (CredMap.insert creds location credential) r
      (v', r', none)

/-- `Vault.Delete`. -/
def Vault.delete (v : Vault) (location : String) (r : RNG) :
    Vault × RNG × Option VErr :=
  match v.decrypt with
  | .error e => (v, r, some e)
  | .ok creds =>
    if (CredMap.lookup creds location).isSome then
      let (v', r') := v.encrypt (CredMap.erase creds location) r
      (v', r', none)
    else
      (v, r, some .noSuchCredential)

/-- `Vault.AddMeta`. -/
def Vault.addMeta (v : Vault) (location name value : String) (r : RNG) :
    Vault × RNG × Option VErr :=
  match v.decrypt with
  | .error e => (v, r, some e)
  | .ok creds =>
    match CredMap.lookup creds location with
    | none => (v, r, some .noSuchCredential)
    | some cred =>
      if (metaLookup cred.meta name).isSome then
        (v, r, some .metaExists)
      else
        let cred := { cred with meta := metaInsert cred.meta name value }
        let (v', r') := v.encrypt (CredMap.insert creds location cred) r
        (v', r', none)

/-- `Vault.EditMeta`. -/
def Vault.editMeta (v : Vault) (location name newvalue : String) (r : RNG) :
    Vault × RNG × Option VErr :=
  match v.decrypt with
  | .error e => (v, r, some e)
  | .ok creds =>
    match CredMap.lookup creds location with
    | none => (v, r, some .noSuchCredential)
    | some cred =>
      if (metaLookup cred.meta name).isSome then
        let cred := { cred with meta := metaInsert cred.meta name newvalue }
        let (v', r') := v.encrypt (CredMap.insert creds location cred) r
        (v', r', none)
      else
        (v, r, some .metaDoesNotExist)

/-- `Vault.DeleteMeta`. -/
def Vault.deleteMeta (v : Vault) (location metaname : String) (r : RNG) :
    Vault × RNG × Option VErr :=
  match v.decrypt with
  | .error e => (v, r, some e)
  | .ok creds =>
    match CredMap.lookup creds location with
    | none => (v, r, some .noSuchCredential)
    | some cred =>
      if (metaLookup cred.meta metaname).isSome then
        let cred := { cred with meta := metaErase cred.meta metaname }
        let (v', r') := v.encrypt (CredMap.insert creds location cred) r
        (v', r', none)
      else
        (v, r, some .metaDoesNotExist)

/-- `pwgen.GeneratePassphrase(charset, length)`: fails with `errBadLength`
on zero length; otherwise, for each of the `length` characters, draws one
uniform index below the charset size from the random source
(`rand.Int(rand.Reader, big.NewInt(int64(len(charset))))`, modelled as one
tape draw reduced modulo the charset size) and appends the indexed charset
byte.  `rand.Int` would panic on an empty charset; that point is
unreachable from the vault engine, whose only call passes the nonempty
`CharsetAlphaNum` (so the `getD` default is never used there). -/
def generatePassphrase (charset : List Char) (len : Nat) (r : RNG) :
    Except VErr (String × RNG) :=
  if len = 0 then .error .pwgenBadLength
  else
    let chars := (List.range len).map (fun i => charset.getD (r.tape (r.idx + i) % charset.length) 'a')
    .ok (⟨chars⟩, ⟨r.tape, r.idx + len⟩)

/-- `pwgen.CharsetAlphaNum`: lowercase letters and digits. -/
def charsetAlphaNum : List Char :=
  "abcdefghijklmnopqrstuvwxyz0123456789".toList

/-- `Vault.Generate`: generate a passphrase and `Add` it. -/
def Vault.generate (v : Vault) (location username : String) (r : RNG) :
    Vault × RNG × Option VErr :=
  match generatePassphrase charsetAlphaNum genPasswordLen r with
  | .error e => (v, r, some e)
  | .ok (phrase, r₁) =>
    v.add location { username := username, password := phrase } r₁

/-- `Vault.ChangePassphrase`: draw a fresh nonce and salt, derive the new
key, install all three, and re-seal (the installed nonce is immediately
superseded by `encrypt`'s own fresh draw, exactly as in the source). -/
def Vault.changePassphrase (v : Vault) (newpassphrase : String) (r : RNG) :
    Vault × RNG × Option VErr :=
  match v.decrypt with
  | .error e => (v, r, some e)
  | .ok creds =>
    let (nonce, r₁) := r.draw
    let (salt, r₂) := r₁.draw
    let secret := Key.argon newpassphrase salt v.argonTime v.argonMemory v.argonLanes
    let v := { v with nonce := nonce, secret := secret, salt := salt }
    let (v', r') := v.encrypt creds r₂
    (v', r', none)

/-- Insertion step for the model of `sort.Strings`. -/
def sortedInsert (s : String) : List String → List String
  | [] => [s]
  | x :: xs => if s ≤ x then s :: x :: xs else x :: sortedInsert s xs

/-- Model of `sort.Strings`. -/
def sortStrings (l : List String) : List String := l.foldr sortedInsert []

/-- `Vault.Locations`: decrypt, collect keys, sort. -/
def Vault.locations (v : Vault) (r : RNG) :
    Vault × RNG × Except VErr (List String) :=
  match v.decrypt with
  | .error e => (v, r, .error e)
  | .ok creds => (v, r, .ok (sortStrings (creds.map Prod.fst)))

/-- Model of `strings.Contains location searchtext`. -/
def strContains (s sub : String) : Bool := decide (List.IsInfix sub.toList s.toList)

/-- First entry of the map whose key satisfies `p` (Go map iteration order
modelled as list order). -/
def findEntry (p : String → Bool) : CredMap → Option (String × Credential)
  | [] => none
  | (k, c) :: rest => if p k then some (k, c) else findEntry p rest

/-- `Vault.Find`: exact match first, then substring containment. -/
def Vault.find (v : Vault) (searchtext : String) (r : RNG) :
    Vault × RNG × Except VErr (String × Credential) :=
  match v.decrypt with
  | .error e => (v, r, .error e)
  | .ok creds =>
    match findEntry (fun loc => loc = searchtext) creds with
    | some kc => (v, r, .ok kc)
    | none =>
      match findEntry (fun loc => strContains loc searchtext) creds with
      | some kc => (v, r, .ok kc)
      | none => (v, r, .error .noSuchCredential)

/-- First metadata entry whose key satisfies `p`. -/
def findMetaEntry (p : String → Bool) : List (String × String) → Option (String × String)
  | [] => none
  | (k, val) :: rest => if p k then some (k, val) else findMetaEntry p rest

/-- `Vault.FindMeta`: exact match first, then substring containment, over
one credential's metadata. -/
def Vault.findMeta (v : Vault) (location searchtext : String) (r : RNG) :
    Vault × RNG × Except VErr (String × String) :=
  match v.decrypt with
  | .error e => (v, r, .error e)
  | .ok creds =>
    match CredMap.lookup creds location with
    | none => (v, r, .error .noSuchCredential)
    | some cred =>
      match findMetaEntry (fun n => n = searchtext) cred.meta with
      | some nv => (v, r, .ok nv)
      | none =>
        match findMetaEntry (fun n => strContains n searchtext) cred.meta with
        | some nv => (v, r, .ok nv)
        | none => (v, r, .error .metaDoesNotExist)

/-- `Vault.Save`: build the `vaultFile` record written (atomically) to disk
from the current in-memory fields; the receiver is not written to. -/
def Vault.save (v : Vault) (r : RNG) : Vault × RNG × VaultFile :=
  (v, r,
    { nonce := v.nonce
      salt := v.salt
      argonTime := v.argonTime
      argonMemory := v.argonMemory
      argonLanes := v.argonLanes
      data := v.data })

/-! ## On-disk files, the file lock, and `Open` -/

/-- The raw byte view of a file, as read by `openVaultCompat` via
`ioutil.ReadFile`.  `short len` represents any file of fewer than 48 bytes
(slicing `bs[:24]` / `bs[24:48]` on such a file is out of range and
panics).  `fields salt nonce ct oldestTail` represents a file of at least
48 bytes: `salt` is `bs[:24]`, `nonce` is `bs[24:48]`, `ct` is the
secretbox interpretation of `bs[48:]`, and `oldestTail` is the secretbox
interpretation of the same region `bs[24:]` as one blob — the view the
oldest (nonce-doubles-as-salt) layout reads; the two tail fields describe
the same underlying bytes under the two parses. -/
inductive RawView where
  | short (len : Nat)
  | fields (salt nonce : Nat) (ct : SBCipher) (oldestTail : SBCipher)
deriving DecidableEq, Repr

/-- An on-disk file's contents, carrying both the current-layout parse
(`current?` is the result of json-decoding into `vaultFile`, `none` when
the file is not such a json document) and the raw byte view. -/
structure File where
  current? : Option VaultFile
  raw : RawView
deriving DecidableEq, Repr

/-- Model of `filepath.Abs`: paths in the model are taken to be already
absolute, on which `Abs` is the identity. -/
def absPath (p : String) : String := p

/-- The set of lock files currently present on disk (the `.lck` paths). -/
abbrev LockState := List String

/-- `filelock.Lock`: compute the absolute `.lck` path; fail with
`ErrLocked` if that lock file exists; otherwise create it. -/
def filelockLock (st : LockState) (filename : String) :
    Except VErr (FileLock × LockState) :=
  let absolutePath := absPath (filename ++ ".lck")
  if absolutePath ∈ st then .error .locked
  else .ok (⟨absolutePath⟩, absolutePath :: st)

/-- `FileLock.Unlock`: remove the lock file. -/
def FileLock.unlock (fl : FileLock) (st : LockState) : LockState :=
  st.erase fl.path

/-- `openVault`: current-layout open.  Json-decode, derive the key with the
embedded salt and parameters, decrypt; then rotate the salt (fresh draw),
re-derive the key from the new salt, and re-seal. -/
def openVault (file? : Option File) (passphrase : String) (r : RNG) :
    Except VErr (Vault × RNG) :=
  match file? with
  | none => .error .fileNotFound
  | some f =>
    match f.current? with
    | none => .error .jsonParse
    | some vf =>
      let secret := Key.argon passphrase vf.salt vf.argonTime vf.argonMemory vf.argonLanes
      let vault : Vault :=
        { data := vf.data, nonce := vf.nonce, secret := secret, salt := vf.salt
          argonTime := vf.argonTime, argonMemory := vf.argonMemory
          argonLanes := vf.argonLanes }
      match vault.decrypt with
      | .error e => .error e
      | .ok creds =>
        let (newSalt, r₁) := r.draw
        let vault := { vault with salt := newSalt
                                  secret := Key.argon passphrase newSalt vault.argonTime
                                              vault.argonMemory vault.argonLanes }
        .ok (vault.encrypt creds r₁)

/-- Outcome of an open attempt that can terminate abnormally: the Go code
either returns `(vault, nil)`, returns `(nil, err)`, or panics. -/
inductive OpenOutcome where
  | ok (v : Vault) (r : RNG)
  | error (e : VErr)
  | panicked

/-- `openVaultCompat`: legacy-layout open (`salt(24) || nonce(24) || ct`,
scrypt KDF, nacl/secretbox).  On a readable file of fewer than 48 bytes the
source slices `bs[:24]` / `bs[24:48]` out of range and panics.  On success
the vault keeps the file's salt, re-derives the key with argon2id over that
same salt and the default parameters, and re-seals (fresh nonce). -/
def openVaultCompat (file? : Option File) (passphrase : String) (r : RNG) :
    OpenOutcome :=
  match file? with
  | none => .error .fileNotFound
  | some f =>
    match f.raw with
    | .short _ => .panicked
    | .fields salt nonce ct _ =>
      let key := Key.scryptK passphrase salt
      match sbOpen ct nonce key with
      | none => .error .couldNotDecrypt
      | some pt =>
        match gobDecodeCreds pt with
        | none => .error .gobDecode
        | some creds =>
          let vault : Vault :=
            { data := .junk 0, nonce := 0, salt := salt, secret := key
              argonTime := defaultArgonTime, argonMemory := defaultArgonMemory
              argonLanes := numCPU }
          let vault := { vault with
            secret := Key.argon passphrase salt defaultArgonTime defaultArgonMemory numCPU }
          let (v', r') := vault.encrypt creds r
          .ok v' r'

/-- `vault.Open`: resolve the absolute path, acquire the file lock, try the
current layout, fall back to the legacy layout, release the lock on
failure.  `fs` maps a path to the contents of the file there (`none` when
reading fails). -/
def Open (st : LockState) (fs : String → Option File)
    (filename passphrase : String) (r : RNG) : OpenOutcome × LockState :=
  let vaultPath := absPath filename
  match filelockLock st vaultPath with
  | .error e => (.error e, st)
  | .ok (lock, st₁) =>
    match openVault (fs vaultPath) passphrase r with
    | .ok (v, r') => (.ok { v with lock := some lock } r', st₁)
    | .error _ =>
      match openVaultCompat (fs vaultPath) passphrase r with
      | .ok v r' => (.ok { v with lock := some lock } r', st₁)
      | .error e => (.error e, FileLock.unlock lock st₁)
      | .panicked => (.panicked, st₁)

/-- Modelled from the spec: the oldest legacy layout reader
(`nonce(24) || ciphertext`, the nonce doubling as the scrypt salt), which
the spec lists as a read-compatibility target after the `salt || nonce || ct`
layout.  No such reader exists on the live `Open` path of the source; this
definition follows the spec's words (and the superseded in-tree revision of
the package) so the fallback-order claim can be stated against it. -/
def openOldest (file? : Option File) (passphrase : String) : Option CredMap :=
  match file? with
  | none => none
  | some f =>
    match f.raw with
    | .short _ => none
    | .fields salt _ _ oldestTail =>
      match sbOpen oldestTail salt (Key.scryptK passphrase salt) with
      | none => none
      | some pt => gobDecodeCreds pt

/-! ## CSV import -/

/-- The header-scan of `LoadCSV`: the index of the last header column equal
to `name`, defaulting to 0 (`locationFieldIndex` et al. start at 0 and are
assigned on every match). -/
def lastIdxMatching (name : String) (header : List String) : Nat :=
  header.enum.foldl (fun acc p => if p.2 = name then p.1 else acc) 0

/-- The metadata loop of `LoadCSV` over one record: every column other than
the three configured ones becomes a meta tag named by its header entry.  An
`AddMeta` failure aborts the import (records all have the header's length,
enforced by the csv reader, so `header[idx]` is in range; `getD` supplies
the unreachable default). -/
def addMetas (location : String) (header : List String) (li ui pi : Nat) :
    List (Nat × String) → Vault → RNG → Vault × RNG × Option VErr
  | [], v, r => (v, r, none)
  | (idx, field) :: rest, v, r =>
    if idx = li ∨ idx = ui ∨ idx = pi then
      addMetas location header li ui pi rest v r
    else
      let metaname := header.getD idx ""
      let (v₁, r₁, e?) := v.addMeta location metaname field r
      match e? with
      | some e => (v₁, r₁, some e)
      | none => addMetas location header li ui pi rest v₁ r₁

/-- The record loop of `LoadCSV`.  A record of the wrong width is the csv
reader's `ErrFieldCount` (fatal, returning the count so far); an `Add`
failure is logged and skipped; an `AddMeta` failure is fatal. -/
def importRecords (header : List String) (li ui pi : Nat) :
    List (List String) → Vault → RNG → Nat → Vault × RNG × Nat × Option VErr
  | [], v, r, n => (v, r, n, none)
  | record :: rest, v, r, n =>
    if record.length ≠ header.length then (v, r, n, some .csvFieldCount)
    else
      let location := record.getD li ""
      let cred : Credential := { username := record.getD ui "", password := record.getD pi "" }
      let (v₁, r₁, e?) := v.add location cred r
      match e? with
      | some _ => importRecords header li ui pi rest v₁ r₁ n
      | none =>
        let (v₂, r₂, e₂?) := addMetas location header li ui pi record.enum v₁ r₁
        match e₂? with
        | some e => (v₂, r₂, n, some e)
        | none => importRecords header li ui pi rest v₂ r₂ (n + 1)

/-- `Vault.LoadCSV`: the first record is the header; the three field
indices are found by scanning the header (staying 0 when a name is absent);
the remaining records are imported. -/
def Vault.loadCSV (v : Vault) (r : RNG) (rows : List (List String))
    (locationField usernameField passwordField : String) :
    Vault × RNG × Nat × Option VErr :=
  match rows with
  | [] => (v, r, 0, none)
  | header :: rest =>
    let li := lastIdxMatching locationField header
    let ui := lastIdxMatching usernameField header
    let pi := lastIdxMatching passwordField header
    importRecords header li ui pi rest v r 0

/-! ## Sequences of mutating operations (for the nonce-freshness invariant) -/

/-- The mutating operations of §4.4: each decrypts, applies one logical
change, and re-seals with a fresh nonce. -/
inductive MutOp where
  | add (location : String) (credential : Credential)
  | edit (location : String) (credential : Credential)
  | del (location : String)
  | addMeta (location name value : String)
  | editMeta (location name newvalue : String)
  | deleteMeta (location metaname : String)
  | generate (location username : String)
  | changePassphrase (newpassphrase : String)

/-- Dispatch a mutating operation to the corresponding method. -/
def applyOp : MutOp → Vault → RNG → Vault × RNG × Option VErr
  | .add l c, v, r => v.add l c r
  | .edit l c, v, r => v.edit l c r
  | .del l, v, r => v.delete l r
  | .addMeta l n val, v, r => v.addMeta l n val r
  | .editMeta l n val, v, r => v.editMeta l n val r
  | .deleteMeta l n, v, r => v.deleteMeta l n r
  | .generate l u, v, r => v.generate l u r
  | .changePassphrase p, v, r => v.changePassphrase p r

/-- Run a sequence of mutating operations on one handle, stopping at the
first failure and recording, per successful operation, the nonce under
which the vault was re-sealed. -/
def runOps : List MutOp → Vault → RNG → Except VErr (Vault × RNG × List Nat)
  | [], v, r => .ok (v, r, [])
  | o :: os, v, r =>
    match applyOp o v r with
    | (_, _, some e) => .error e
    | (v₁, r₁, none) =>
      match runOps os v₁ r₁ with
      | .error e => .error e
      | .ok (v', r', ns) => .ok (v', r', v₁.nonce :: ns)

/-- After a successful mutating step from random state `r`, the handle's
sealing nonce is the tape value drawn immediately before sealing (position
`r'.idx - 1`), the tape is unchanged, and at least one draw was consumed. -/
def FreshNonce (r : RNG) (v' : Vault) (r' : RNG) : Prop :=
  r'.tape = r.tape ∧ r.idx < r'.idx ∧ v'.nonce = r.tape (r'.idx - 1)

lemma freshNonce_encrypt (v : Vault) (creds : CredMap) (r : RNG) :
    FreshNonce r (v.encrypt creds r).1 (v.encrypt creds r).2 := by
  simp [FreshNonce, Vault.encrypt, RNG.draw]

lemma FreshNonce.mono (r₀ r₁ : RNG) (v' : Vault) (r' : RNG)
    (htape : r₁.tape = r₀.tape) (hidx : r₀.idx ≤ r₁.idx)
    (h : FreshNonce r₁ v' r') : FreshNonce r₀ v' r' := by
  obtain ⟨ht, hlt, hn⟩ := h
  refine ⟨ht.trans htape, lt_of_le_of_lt hidx hlt, ?_⟩
  rw [hn, htape]

/-- The shared shape of every mutating method: on success the result is
`v.encrypt creds r` for some credential map `creds`. -/
lemma freshNonce_of_encrypt_eq (v : Vault) (creds : CredMap) (r : RNG)
    (v' : Vault) (r' : RNG) (h : v.encrypt creds r = (v', r')) :
    FreshNonce r v' r' := by
  have := freshNonce_encrypt v creds r
  rwa [h] at this

lemma add_success_fresh (v : Vault) (l : String) (c : Credential) (r : RNG)
    (v' : Vault) (r' : RNG) (h : v.add l c r = (v', r', none)) :
    FreshNonce r v' r' := by
  cases hd : v.decrypt with
  | error e => simp [Vault.add, hd] at h
  | ok creds =>
    rcases henc : v.encrypt (CredMap.insert creds l c) r with ⟨w, s⟩
    by_cases hex : (CredMap.lookup creds l).isSome = true
    · simp [Vault.add, hd, hex] at h
    · simp [Vault.add, hd, hex, henc] at h
      obtain ⟨h1, h2⟩ := h
      subst h1; subst h2
      exact freshNonce_of_encrypt_eq v _ r w s henc

lemma edit_success_fresh (v : Vault) (l : String) (c : Credential) (r : RNG)
    (v' : Vault) (r' : RNG) (h : v.edit l c r = (v', r', none)) :
    FreshNonce r v' r' := by
  cases hd : v.decrypt with
  | error e => simp [Vault.edit, hd] at h
  | ok creds =>
    cases hlk : CredMap.lookup creds l with
    | none => simp [Vault.edit, hd, hlk] at h
    | some oldcred =>
      rcases henc : v.encrypt (CredMap.insert creds l { c with meta := oldcred.meta }) r with ⟨w, s⟩
      simp [Vault.edit, hd, hlk, henc] at h
      obtain ⟨h1, h2⟩ := h
      subst h1; subst h2
      exact freshNonce_of_encrypt_eq v _ r w s henc

lemma delete_success_fresh (v : Vault) (l : String) (r : RNG)
    (v' : Vault) (r' : RNG) (h : v.delete l r = (v', r', none)) :
    FreshNonce r v' r' := by
  cases hd : v.decrypt with
  | error e => simp [Vault.delete, hd] at h
  | ok creds =>
    rcases henc : v.encrypt (CredMap.erase creds l) r with ⟨w, s⟩
    by_cases hex : (CredMap.lookup creds l).isSome = true
    · simp [Vault.delete, hd, hex, henc] at h
      obtain ⟨h1, h2⟩ := h
      subst h1; subst h2
      exact freshNonce_of_encrypt_eq v _ r w s henc
    · simp [Vault.delete, hd, hex] at h

lemma addMeta_success_fresh (v : Vault) (l n val : String) (r : RNG)
    (v' : Vault) (r' : RNG) (h : v.addMeta l n val r = (v', r', none)) :
    FreshNonce r v' r' := by
  cases hd : v.decrypt with
  | error e => simp [Vault.addMeta, hd] at h
  | ok creds =>
    cases hlk : CredMap.lookup creds l with
    | none => simp [Vault.addMeta, hd, hlk] at h
    | some cred =>
      rcases henc : v.encrypt
          (CredMap.insert creds l { cred with meta := metaInsert cred.meta n val }) r with ⟨w, s⟩
      by_cases hm : (metaLookup cred.meta n).isSome = true
      · simp [Vault.addMeta, hd, hlk, hm] at h
      · simp [Vault.addMeta, hd, hlk, hm, henc] at h
        obtain ⟨h1, h2⟩ := h
        subst h1; subst h2
        exact freshNonce_of_encrypt_eq v _ r w s henc

lemma editMeta_success_fresh (v : Vault) (l n val : String) (r : RNG)
    (v' : Vault) (r' : RNG) (h : v.editMeta l n val r = (v', r', none)) :
    FreshNonce r v' r' := by
  cases hd : v.decrypt with
  | error e => simp [Vault.editMeta, hd] at h
  | ok creds =>
    cases hlk : CredMap.lookup creds l with
    | none => simp [Vault.editMeta, hd, hlk] at h
    | some cred =>
      rcases henc : v.encrypt
          (CredMap.insert creds l { cred with meta := metaInsert cred.meta n val }) r with ⟨w, s⟩
      by_cases hm : (metaLookup cred.meta n).isSome = true
      · simp [Vault.editMeta, hd, hlk, hm, henc] at h
        obtain ⟨h1, h2⟩ := h
        subst h1; subst h2
        exact freshNonce_of_encrypt_eq v _ r w s henc
      · simp [Vault.editMeta, hd, hlk, hm] at h

lemma deleteMeta_success_fresh (v : Vault) (l n : String) (r : RNG)
    (v' : Vault) (r' : RNG) (h : v.deleteMeta l n r = (v', r', none)) :
    FreshNonce r v' r' := by
  cases hd : v.decrypt with
  | error e => simp [Vault.deleteMeta, hd] at h
  | ok creds =>
    cases hlk : CredMap.lookup creds l with
    | none => simp [Vault.deleteMeta, hd, hlk] at h
    | some cred =>
      rcases henc : v.encrypt
          (CredMap.insert creds l { cred with meta := metaErase cred.meta n }) r with ⟨w, s⟩
      by_cases hm : (metaLookup cred.meta n).isSome = true
      · simp [Vault.deleteMeta, hd, hlk, hm, henc] at h
        obtain ⟨h1, h2⟩ := h
        subst h1; subst h2
        exact freshNonce_of_encrypt_eq v _ r w s henc
      · simp [Vault.deleteMeta, hd, hlk, hm] at h

lemma changePassphrase_success_fresh (v : Vault) (p : String) (r : RNG)
    (v' : Vault) (r' : RNG) (h : v.changePassphrase p r = (v', r', none)) :
    FreshNonce r v' r' := by
  cases hd : v.decrypt with
  | error e => simp [Vault.changePassphrase, hd] at h
  | ok creds =>
    simp [Vault.changePassphrase, hd, Vault.encrypt, RNG.draw] at h
    obtain ⟨h1, h2⟩ := h
    subst h1; subst h2
    simp [FreshNonce]
    omega

lemma generate_success_fresh (v : Vault) (l u : String) (r : RNG)
    (v' : Vault) (r' : RNG) (h : v.generate l u r = (v', r', none)) :
    FreshNonce r v' r' := by
  have hcond : ¬(genPasswordLen = 0) := by decide
  simp only [Vault.generate, generatePassphrase, hcond, if_false] at h
  refine FreshNonce.mono r ⟨r.tape, r.idx + genPasswordLen⟩ v' r' rfl (Nat.le_add_right _ _) ?_
  exact add_success_fresh v l _ ⟨r.tape, r.idx + genPasswordLen⟩ v' r' h

lemma applyOp_success (o : MutOp) (v : Vault) (r : RNG) (v' : Vault) (r' : RNG)
    (h : applyOp o v r = (v', r', none)) : FreshNonce r v' r' := by
  cases o with
  | add l c => exact add_success_fresh v l c r v' r' h
  | edit l c => exact edit_success_fresh v l c r v' r' h
  | del l => exact delete_success_fresh v l r v' r' h
  | addMeta l n val => exact addMeta_success_fresh v l n val r v' r' h
  | editMeta l n val => exact editMeta_success_fresh v l n val r v' r' h
  | deleteMeta l n => exact deleteMeta_success_fresh v l n r v' r' h
  | generate l u => exact generate_success_fresh v l u r v' r' h
  | changePassphrase p => exact changePassphrase_success_fresh v p r v' r' h

/-- Across a successful run, the recorded sealing nonces are tape values at
strictly increasing positions, all drawn inside the run's window. -/
lemma runOps_spec (ops : List MutOp) :
    ∀ (v : Vault) (r : RNG) (v' : Vault) (r' : RNG) (ns : List Nat),
    runOps ops v r = .ok (v', r', ns) →
    r'.tape = r.tape ∧ r.idx ≤ r'.idx ∧
    ∃ js : List Nat, ns = js.map r.tape ∧ js.Chain' (· < ·) ∧
      ∀ j ∈ js, r.idx ≤ j ∧ j < r'.idx := by
  induction ops with
  | nil =>
    intro v r v' r' ns h
    simp [runOps] at h
    obtain ⟨h1, h2, h3⟩ := h
    subst h1; subst h2; subst h3
    exact ⟨rfl, le_refl _, [], by simp, by simp, by simp⟩
  | cons o os ih =>
    intro v r v' r' ns h
    rcases hap : applyOp o v r with ⟨v₁, r₁, e?⟩
    cases e? with
    | some e => simp [runOps, hap] at h
    | none =>
      rcases hrun : runOps os v₁ r₁ with e | ⟨v₂, r₂, ns₂⟩
      · simp [runOps, hap, hrun] at h
      · simp [runOps, hap, hrun] at h
        obtain ⟨hv, hr, hns⟩ := h
        subst hv; subst hr; subst hns
        obtain ⟨htape1, hidx1, hnonce1⟩ := applyOp_success o v r v₁ r₁ hap
        obtain ⟨htape2, hidx2, js₂, hns₂, hchain₂, hbound₂⟩ := ih v₁ r₁ v₂ r₂ ns₂ hrun
        refine ⟨htape2.trans htape1, by omega, (r₁.idx - 1) :: js₂, ?_, ?_, ?_⟩
        · simp only [List.map]
          rw [hnonce1, hns₂, htape1]
        · rw [List.chain'_cons']
          refine ⟨?_, hchain₂⟩
          intro y hy
          have hymem := List.mem_of_mem_head? hy
          have := (hbound₂ y hymem).1
          omega
        · intro j hj
          rcases List.mem_cons.mp hj with hj | hj
          · subst hj; omega
          · have := hbound₂ j hj
            omega

/-- Claim C2: across a sequence of consecutive successful mutating
operations (Add, Edit, Delete, AddMeta, EditMeta, DeleteMeta, Generate,
ChangePassphrase) on one vault handle, each re-sealing uses a nonce freshly
drawn from the random source immediately before sealing, so when the random
source yields pairwise distinct draws (an injective tape) the nonces used
for sealing are pairwise distinct — no (key, nonce) pair is reused. -/
theorem mutation_nonces_pairwise_distinct (ops : List MutOp) (v : Vault) (r : RNG)
    {v' : Vault} {r' : RNG} {ns : List Nat}
    (h : runOps ops v r = .ok (v', r', ns))
    (hinj : Function.Injective r.tape) :
    ns.Pairwise (· ≠ ·) := by
  obtain ⟨-, -, js, hns, hchain, -⟩ := runOps_spec ops v r v' r' ns h
  subst hns
  have hp : js.Pairwise (· < ·) := List.chain'_iff_pairwise.mp hchain
  exact hp.map r.tape (fun a b hab he => Nat.ne_of_lt hab (hinj he))

/-- Witness for claim C2: a concrete run of two mutating operations on an
injective tape yields the sealing nonces 0 and 1, which are distinct. -/
theorem mutation_nonces_pairwise_distinct_witness :
    ([0, 1] : List Nat).Pairwise (· ≠ ·) :=
  mutation_nonces_pairwise_distinct
    [.add "a" { username := "u", password := "p" }, .del "a"]
    { data := .sealed (.raw 0) 0 (.gobCreds []), nonce := 0, salt := 0,
      secret := .raw 0, argonTime := 3, argonMemory := 2000000, argonLanes := 1 }
    ⟨fun n => n, 0⟩ rfl (fun _ _ hab => hab)

/-! ## Round-trip, CRUD and frame properties -/

lemma decrypt_encrypt (v : Vault) (creds : CredMap) (r : RNG) :
    ((v.encrypt creds r).1).decrypt = .ok creds := by
  simp [Vault.encrypt, Vault.decrypt, RNG.draw, xOpen, gobDecodeCreds]

lemma lookup_insert (m : CredMap) (k : String) (c : Credential) :
    CredMap.lookup (CredMap.insert m k c) k = some c := by
  induction m with
  | nil => simp [CredMap.insert, CredMap.lookup]
  | cons kv rest ih =>
    obtain ⟨k', c'⟩ := kv
    by_cases hk : k' = k
    · simp [CredMap.insert, CredMap.lookup, hk]
    · simp [CredMap.insert, CredMap.lookup, hk, ih]

/-- Claim C1: for every credential map and every vault handle, sealing the
map (gob-serialize, draw a fresh nonce, seal) and then decrypting the
resulting state returns a credential map equal to the original. -/
theorem encrypt_then_decrypt_roundtrip (v : Vault) (creds : CredMap) (r : RNG) :
    ((v.encrypt creds r).1).decrypt = .ok creds :=
  decrypt_encrypt v creds r

/-- Claim C7: `Add` fails with `ErrCredentialExists` when the location is
already a key — returning the handle and random state untouched, so the set
still holds the original credential — and inserts the credential
otherwise. -/
theorem add_already_exists_frame (v : Vault) (loc : String) (c₀ cred : Credential)
    (creds : CredMap) (r : RNG) (hdec : v.decrypt = .ok creds) :
    (CredMap.lookup creds loc = some c₀ →
      v.add loc cred r = (v, r, some .credentialExists)) ∧
    (CredMap.lookup creds loc = none →
      ∃ v' r', v.add loc cred r = (v', r', none) ∧
        v'.decrypt = .ok (CredMap.insert creds loc cred)) := by
  constructor
  · intro hlk
    simp [Vault.add, hdec, hlk]
  · intro hlk
    refine ⟨(v.encrypt (CredMap.insert creds loc cred) r).1,
            (v.encrypt (CredMap.insert creds loc cred) r).2, ?_, decrypt_encrypt ..⟩
    simp [Vault.add, hdec, hlk]

/-- The all-zero based random tape used by concrete witnesses. -/
def idRNG0 : RNG := ⟨fun n => n, 0⟩

/-- Concrete stored credential used by the C7 witness. -/
def c7Old : Credential := { username := "u1", password := "p1" }

/-- Concrete replacement credential used by the C7 witness. -/
def c7New : Credential := { username := "u2", password := "p2" }

/-- Concrete vault handle used by the C7 witness; it holds `c7Old` at
location `a`. -/
def c7Vault : Vault :=
  { data := .sealed (.raw 7) 5 (.gobCreds [("a", c7Old)]), nonce := 5, salt := 0,
    secret := .raw 7, argonTime := 3, argonMemory := 2000000, argonLanes := 1 }

/-- Witness for claim C7 at a concrete vault holding one credential. -/
theorem add_already_exists_frame_witness :
    (c7Vault.add "a" c7New idRNG0 = (c7Vault, idRNG0, some .credentialExists)) ∧
    (∃ v' r', c7Vault.add "b" c7New idRNG0 = (v', r', none) ∧
      v'.decrypt = .ok (CredMap.insert [("a", c7Old)] "b" c7New)) :=
  ⟨(add_already_exists_frame c7Vault "a" c7Old c7New [("a", c7Old)] idRNG0 rfl).1 rfl,
   (add_already_exists_frame c7Vault "b" c7Old c7New [("a", c7Old)] idRNG0 rfl).2 rfl⟩

/-- Claim C8: `Edit` fails with `ErrNoSuchCredential` when the location is
absent; otherwise the stored credential afterwards carries the new
username/password but the previously stored metadata (metadata supplied in
the replacement is discarded), as observed by a subsequent `Get`. -/
theorem edit_preserves_metadata (v : Vault) (loc : String) (newCred : Credential)
    (creds : CredMap) (r : RNG) (hdec : v.decrypt = .ok creds) :
    (CredMap.lookup creds loc = none →
      v.edit loc newCred r = (v, r, some .noSuchCredential)) ∧
    (∀ oldCred, CredMap.lookup creds loc = some oldCred →
      ∃ v' r', v.edit loc newCred r = (v', r', none) ∧
        (v'.get loc r').2.2 = .ok { username := newCred.username,
                                    password := newCred.password,
                                    meta := oldCred.meta }) := by
  constructor
  · intro hlk
    simp [Vault.edit, hdec, hlk]
  · intro oldCred hlk
    refine ⟨(v.encrypt (CredMap.insert creds loc { newCred with meta := oldCred.meta }) r).1,
            (v.encrypt (CredMap.insert creds loc { newCred with meta := oldCred.meta }) r).2,
            ?_, ?_⟩
    · simp [Vault.edit, hdec, hlk]
    · simp [Vault.get, decrypt_encrypt, lookup_insert]

/-- Concrete stored, metadata-bearing credential used by the C8 witness. -/
def c8Old : Credential := { username := "u", password := "p", meta := [("k", "mv")] }

/-- Concrete replacement credential (with metadata the code must discard)
used by the C8 witness. -/
def c8New : Credential := { username := "nu", password := "np", meta := [("z", "dropped")] }

/-- Concrete vault handle used by the C8 witness; it holds `c8Old` at
location `a`. -/
def c8Vault : Vault :=
  { data := .sealed (.raw 7) 5 (.gobCreds [("a", c8Old)]), nonce := 5, salt := 0,
    secret := .raw 7, argonTime := 3, argonMemory := 2000000, argonLanes := 1 }

/-- Witness for claim C8 at a concrete vault with one metadata-bearing
credential. -/
theorem edit_preserves_metadata_witness :
    (c8Vault.edit "b" c8New idRNG0 = (c8Vault, idRNG0, some .noSuchCredential)) ∧
    (∃ v' r', c8Vault.edit "a" c8New idRNG0 = (v', r', none) ∧
      (v'.get "a" r').2.2 =
        .ok { username := "nu", password := "np", meta := [("k", "mv")] }) :=
  ⟨(edit_preserves_metadata c8Vault "b" c8New [("a", c8Old)] idRNG0 rfl).1 rfl,
   (edit_preserves_metadata c8Vault "a" c8New [("a", c8Old)] idRNG0 rfl).2 c8Old rfl⟩

lemma get_frame (v : Vault) (loc : String) (r : RNG) :
    ∃ res, v.get loc r = (v, r, res) := by
  unfold Vault.get
  rcases hd : v.decrypt with e | creds
  · exact ⟨_, rfl⟩
  · dsimp only
    rcases hlk : CredMap.lookup creds loc with _ | c <;> exact ⟨_, rfl⟩

lemma locations_frame (v : Vault) (r : RNG) :
    ∃ res, v.locations r = (v, r, res) := by
  unfold Vault.locations
  rcases hd : v.decrypt with e | creds <;> exact ⟨_, rfl⟩

lemma find_frame (v : Vault) (s : String) (r : RNG) :
    ∃ res, v.find s r = (v, r, res) := by
  unfold Vault.find
  rcases hd : v.decrypt with e | creds
  · exact ⟨_, rfl⟩
  · dsimp only
    rcases h1 : findEntry (fun loc => loc = s) creds with _ | kc
    · dsimp only
      rcases h2 : findEntry (fun loc => strContains loc s) creds with _ | kc <;>
        exact ⟨_, rfl⟩
    · exact ⟨_, rfl⟩

lemma findMeta_frame (v : Vault) (loc s : String) (r : RNG) :
    ∃ res, v.findMeta loc s r = (v, r, res) := by
  unfold Vault.findMeta
  rcases hd : v.decrypt with e | creds
  · exact ⟨_, rfl⟩
  · dsimp only
    rcases hlk : CredMap.lookup creds loc with _ | cred
    · exact ⟨_, rfl⟩
    · dsimp only
      rcases h1 : findMetaEntry (fun n => n = s) cred.meta with _ | nv
      · dsimp only
        rcases h2 : findMetaEntry (fun n => strContains n s) cred.meta with _ | nv <;>
          exact ⟨_, rfl⟩
      · exact ⟨_, rfl⟩

/-- Claim C9: the read-only operations (`Get`, `Locations`, `Find`,
`FindMeta`) and `Save` leave the in-memory vault handle — ciphertext,
nonce, salt, derived key, KDF parameters — exactly as it was, and consume
no randomness (no re-sealing under a new nonce); `Save` emits the
current state as a `vaultFile` record without altering it. -/
theorem readonly_and_save_frame (v : Vault) (r : RNG) (loc s : String) :
    (∃ res, v.get loc r = (v, r, res)) ∧
    (∃ res, v.locations r = (v, r, res)) ∧
    (∃ res, v.find s r = (v, r, res)) ∧
    (∃ res, v.findMeta loc s r = (v, r, res)) ∧
    v.save r = (v, r,
      { nonce := v.nonce, salt := v.salt, argonTime := v.argonTime,
        argonMemory := v.argonMemory, argonLanes := v.argonLanes, data := v.data }) :=
  ⟨get_frame v loc r, locations_frame v r, find_frame v s r,
   findMeta_frame v loc s r, rfl⟩

lemma lastIdxMatching_enumFrom (name : String) :
    ∀ (l : List String) (n acc : Nat), name ∉ l →
      (List.enumFrom n l).foldl (fun a p => if p.2 = name then p.1 else a) acc = acc := by
  intro l
  induction l with
  | nil => intro n acc _; simp
  | cons x xs ih =>
    intro n acc h
    have hx : ¬x = name := fun he => h (by simp [he])
    simp only [List.enumFrom, List.foldl_cons, hx, if_false]
    exact ih _ _ (fun hm => h (List.mem_cons_of_mem _ hm))

lemma lastIdxMatching_missing (name : String) (header : List String)
    (h : name ∉ header) : lastIdxMatching name header = 0 := by
  unfold lastIdxMatching
  simpa [List.enum] using lastIdxMatching_enumFrom name header 0 0 h

/-- Claim C10: when a configured location/username/password field name is
absent from the CSV header, the corresponding field index silently stays 0,
so the import proceeds taking that field's values from the first column of
each record instead of failing. -/
theorem loadCSV_missing_fields_default_first_column (v : Vault) (r : RNG)
    (header : List String) (rest : List (List String)) (lf uf pf : String)
    (hl : lf ∉ header) (hu : uf ∉ header) (hp : pf ∉ header) :
    lastIdxMatching lf header = 0 ∧ lastIdxMatching uf header = 0 ∧
    lastIdxMatching pf header = 0 ∧
    v.loadCSV r (header :: rest) lf uf pf = importRecords header 0 0 0 rest v r 0 := by
  refine ⟨lastIdxMatching_missing _ _ hl, lastIdxMatching_missing _ _ hu,
          lastIdxMatching_missing _ _ hp, ?_⟩
  simp [Vault.loadCSV, lastIdxMatching_missing _ _ hl,
        lastIdxMatching_missing _ _ hu, lastIdxMatching_missing _ _ hp]

/-- Witness for claim C10 on a concrete two-column CSV whose header matches
none of the configured field names. -/
theorem loadCSV_missing_fields_witness :
    lastIdxMatching "loc" ["x", "y"] = 0 ∧ lastIdxMatching "user" ["x", "y"] = 0 ∧
    lastIdxMatching "pass" ["x", "y"] = 0 ∧
    Vault.loadCSV
      { data := .sealed (.raw 7) 5 (.gobCreds []), nonce := 5, salt := 0, secret := .raw 7,
        argonTime := 3, argonMemory := 2000000, argonLanes := 1 }
      ⟨fun n => n, 0⟩ [["x", "y"], ["a", "b"]] "loc" "user" "pass" =
    importRecords ["x", "y"] 0 0 0 [["a", "b"]]
      { data := .sealed (.raw 7) 5 (.gobCreds []), nonce := 5, salt := 0, secret := .raw 7,
        argonTime := 3, argonMemory := 2000000, argonLanes := 1 }
      ⟨fun n => n, 0⟩ 0 :=
  loadCSV_missing_fields_default_first_column _ _ ["x", "y"] [["a", "b"]] "loc" "user" "pass"
    (by decide) (by decide) (by decide)

/-! ## Open, locking, layout fallback, salt rotation -/

/-- Claim C6: the file lock (on the absolute path's `.lck` file) is taken
before any parse: if the lockfile already exists, `Open` fails with the
Locked error whatever the file contains, leaving the lock state unchanged;
and whenever `Open` returns an error after having acquired the lock, the
lock has been released before returning (the lock state is restored), so a
subsequent `Open` of the same path does not fail with Locked. -/
theorem open_locking (st : LockState) (fs : String → Option File)
    (filename pass : String) (r : RNG) :
    (absPath (absPath filename ++ ".lck") ∈ st →
      Open st fs filename pass r = (.error .locked, st)) ∧
    (absPath (absPath filename ++ ".lck") ∉ st →
      ∀ e st', Open st fs filename pass r = (.error e, st') → st' = st) := by
  constructor
  · intro hmem
    simp [Open, filelockLock, hmem]
  · intro hmem e st' h
    rw [Open] at h
    simp only [filelockLock, if_neg hmem] at h
    cases hov : openVault (fs (absPath filename)) pass r with
    | ok p =>
      obtain ⟨v, r'⟩ := p
      rw [hov] at h
      simp at h
    | error e₁ =>
      rw [hov] at h
      dsimp only at h
      cases hoc : openVaultCompat (fs (absPath filename)) pass r with
      | ok v r' => rw [hoc] at h; simp at h
      | panicked => rw [hoc] at h; simp at h
      | error e₂ =>
        rw [hoc] at h
        dsimp only at h
        simp only [Prod.mk.injEq, OpenOutcome.error.injEq] at h
        obtain ⟨-, h2⟩ := h
        rw [← h2]
        simp [FileLock.unlock]

/-- Witness for claim C6: with the lockfile present, `Open` fails Locked
with the lock state untouched; with it absent and an unreadable target, the
failing `Open` restores the empty lock state. -/
theorem open_locking_witness :
    Open ["f.lck"] (fun _ => none) "f" "p" idRNG0 = (.error .locked, ["f.lck"]) ∧
    ([] : LockState) = ([] : LockState) :=
  ⟨(open_locking ["f.lck"] (fun _ => none) "f" "p" idRNG0).1 (by decide),
   (open_locking [] (fun _ => none) "f" "p" idRNG0).2 (by decide)
     .fileNotFound [] rfl⟩

/-- File contents used for the C4 failing input: a readable file of fewer
than 48 bytes (here: empty) that is not a current-layout json document. -/
def c4File : File := { current? := none, raw := .short 0 }

/-- File system exposing `c4File` everywhere. -/
def c4fs : String → Option File := fun _ => some c4File

/-- Claim C4 (code bug, at the failing input): opening a readable file
shorter than the legacy layout's 48 bytes of fixed field offsets that also
fails the current-layout parse does not produce a typed error —
`openVaultCompat` slices `bs[:24]`/`bs[24:48]` out of range and the process
panics. -/
theorem open_short_file_panics :
    (Open [] c4fs "v.db" "pass" idRNG0).1 = OpenOutcome.panicked := rfl

/-- Claim C3 (amended): after a successful open via the *current* layout
the in-memory salt is freshly drawn from the random source, the key is
re-derived from the new salt, and the blob re-sealed under the new key;
after a successful open via the *legacy* layout the in-memory salt is the
salt read from the file — only the key is re-derived (with the current KDF
over that same salt and the default parameters) and the blob re-sealed
under a fresh nonce. -/
theorem open_salt_rotation (f : File) (pass : String) (r : RNG) :
    (∀ vf creds, f.current? = some vf →
      Vault.decrypt
        { data := vf.data, nonce := vf.nonce,
          secret := Key.argon pass vf.salt vf.argonTime vf.argonMemory vf.argonLanes,
          salt := vf.salt, argonTime := vf.argonTime,
          argonMemory := vf.argonMemory, argonLanes := vf.argonLanes } = .ok creds →
      ∃ v' r', openVault (some f) pass r = .ok (v', r') ∧
        v'.salt = r.tape r.idx ∧
        v'.secret = Key.argon pass (r.tape r.idx) vf.argonTime vf.argonMemory vf.argonLanes ∧
        v'.data = .sealed v'.secret v'.nonce (.gobCreds creds)) ∧
    (∀ salt nonce ct oldTail v' r',
      f.raw = .fields salt nonce ct oldTail →
      openVaultCompat (some f) pass r = .ok v' r' →
      v'.salt = salt ∧
      v'.secret = Key.argon pass salt defaultArgonTime defaultArgonMemory numCPU ∧
      ∃ creds, v'.data = .sealed v'.secret v'.nonce (.gobCreds creds)) := by
  constructor
  · intro vf creds hcur hdec
    refine ⟨{ data := .sealed (Key.argon pass (r.tape r.idx) vf.argonTime vf.argonMemory vf.argonLanes)
                        (r.tape (r.idx + 1)) (.gobCreds creds),
              nonce := r.tape (r.idx + 1),
              salt := r.tape r.idx,
              secret := Key.argon pass (r.tape r.idx) vf.argonTime vf.argonMemory vf.argonLanes,
              argonTime := vf.argonTime, argonMemory := vf.argonMemory,
              argonLanes := vf.argonLanes },
            ⟨r.tape, r.idx + 2⟩, ?_, rfl, rfl, rfl⟩
    rw [openVault, hcur]
    dsimp only
    rw [hdec]
    rfl
  · intro salt nonce ct oldTail v' r' hraw h
    rw [openVaultCompat, hraw] at h
    dsimp only at h
    rcases hsb : sbOpen ct nonce (Key.scryptK pass salt) with _ | pt
    · rw [hsb] at h; simp at h
    · rw [hsb] at h
      dsimp only at h
      rcases hgob : gobDecodeCreds pt with _ | creds
      · rw [hgob] at h; simp at h
      · rw [hgob] at h
        dsimp only at h
        cases h
        exact ⟨rfl, rfl, creds, rfl⟩

/-- Current-layout file used by the C3 amended-claim witness. -/
def c3CurFile : File :=
  { current? := some
      { argonTime := 3, argonMemory := 2000000, argonLanes := 1,
        nonce := 11, salt := 5, data := .sealed (.argon "p" 5 3 2000000 1) 11 (.gobCreds []) },
    raw := .fields 0 0 (.junk 0) (.junk 0) }

/-- Legacy-layout file used by the C3 amended-claim witness and the C3
counterexample: salt field 3, nonce field 9, ciphertext sealed under the
scrypt key for passphrase `p` and salt 3. -/
def c3File : File :=
  { current? := none,
    raw := .fields 3 9 (.sealed (.scryptK "p" 3) 9 (.gobCreds [])) (.junk 0) }

/-- The vault produced by the legacy open of `c3File` in the C3 witness. -/
def c3CompatVault : Vault :=
  { data := .sealed (.argon "p" 3 3 2000000 1) 100 (.gobCreds []), nonce := 100, salt := 3,
    secret := .argon "p" 3 3 2000000 1, argonTime := 3, argonMemory := 2000000,
    argonLanes := 1 }

/-- Witness for the amended claim C3 at concrete current- and
legacy-layout files. -/
theorem open_salt_rotation_witness :
    (∃ v' r', openVault (some c3CurFile) "p" ⟨fun n => n + 100, 0⟩ = .ok (v', r') ∧
      v'.salt = 100 ∧
      v'.secret = Key.argon "p" 100 3 2000000 1 ∧
      v'.data = .sealed v'.secret v'.nonce (.gobCreds [])) ∧
    (c3CompatVault.salt = 3 ∧
     c3CompatVault.secret = Key.argon "p" 3 defaultArgonTime defaultArgonMemory numCPU ∧
     ∃ creds, c3CompatVault.data =
       .sealed c3CompatVault.secret c3CompatVault.nonce (.gobCreds creds)) :=
  ⟨(open_salt_rotation c3CurFile "p" ⟨fun n => n + 100, 0⟩).1
      { argonTime := 3, argonMemory := 2000000, argonLanes := 1,
        nonce := 11, salt := 5, data := .sealed (.argon "p" 5 3 2000000 1) 11 (.gobCreds []) }
      [] rfl rfl,
   (open_salt_rotation c3File "p" ⟨fun n => n + 100, 0⟩).2
      3 9 (.sealed (.scryptK "p" 3) 9 (.gobCreds [])) (.junk 0)
      c3CompatVault ⟨fun n => n + 100, 1⟩ rfl rfl⟩

/-- File system exposing `c3File` everywhere. -/
def c3fs : String → Option File := fun _ => some c3File

/-- The in-memory salt of a successful `Open`, if any. -/
def openedSalt (o : OpenOutcome × LockState) : Option Nat :=
  match o.1 with
  | .ok v _ => some v.salt
  | _ => none

/-- Claim C3 counterexample: opening this legacy-layout vault file
succeeds, yet the in-memory salt afterwards equals the salt read from the
file (3) rather than a freshly drawn one — the random tape used here only
yields values of at least 100, so 3 cannot be a fresh draw. -/
theorem open_compat_keeps_file_salt :
    openedSalt (Open [] c3fs "v.db" "p" ⟨fun n => n + 100, 0⟩) = some 3 := rfl

/-- Claim C5 (amended): once the current layout fails to parse or
authenticate, `Open` attempts exactly one older layout — the
`salt(24) || nonce(24) || ciphertext` layout with fixed scrypt
parameters — and that attempt's outcome decides `Open`; in particular no
further (older) layout is attempted after it fails. -/
theorem open_fallback_order (st : LockState) (fs : String → Option File)
    (filename pass : String) (r : RNG) (e : VErr)
    (hnl : absPath (absPath filename ++ ".lck") ∉ st)
    (hfail : openVault (fs (absPath filename)) pass r = .error e) :
    Open st fs filename pass r =
      (match openVaultCompat (fs (absPath filename)) pass r with
       | .ok v r' =>
         (OpenOutcome.ok
            { v with lock := some ⟨absPath (absPath filename ++ ".lck")⟩ } r',
          absPath (absPath filename ++ ".lck") :: st)
       | .error e' => (OpenOutcome.error e', st)
       | .panicked => (OpenOutcome.panicked, absPath (absPath filename ++ ".lck") :: st)) := by
  rw [Open]
  simp only [filelockLock, if_neg hnl, hfail]
  cases hoc : openVaultCompat (fs (absPath filename)) pass r with
  | ok v r' => rfl
  | panicked => rfl
  | error e₂ => simp [FileLock.unlock]

/-- File that parses and authenticates under the *oldest* legacy layout
only: its `bs[24:]` region is a valid secretbox sealing under the scrypt
key derived from `bs[:24]` (= 4) used as both nonce and KDF salt, while its
`salt || nonce || ct` reading carries junk ciphertext and it is no json
document. -/
def c5File : File :=
  { current? := none,
    raw := .fields 4 9 (.junk 1)
      (.sealed (.scryptK "p" 4) 4 (.gobCreds [("a", { username := "u", password := "pw" })])) }

/-- File system exposing `c5File` everywhere. -/
def c5fs : String → Option File := fun _ => some c5File

/-- Claim C5 counterexample: this file parses and authenticates under the
oldest (`nonce || ciphertext`) legacy layout, so under the claim `Open`
would succeed on it; the code instead returns the decryption error — the
oldest layout is never attempted. -/
theorem open_does_not_try_oldest_layout :
    openOldest (some c5File) "p" =
      some [("a", { username := "u", password := "pw" })] ∧
    (Open [] c5fs "v.db" "p" idRNG0).1 = .error .couldNotDecrypt :=
  ⟨rfl, rfl⟩

/-- Witness for the amended claim C5: at a file whose legacy attempt fails,
`Open` is decided by that single fallback (here: the decryption error). -/
theorem open_fallback_order_witness :
    Open [] c5fs "v.db" "p" idRNG0 = (.error .couldNotDecrypt, []) :=
  open_fallback_order [] c5fs "v.db" "p" idRNG0 .jsonParse (by decide) rfl

end Masterkey
